import Mathlib

/-!
Verification of the AutoDraw 2D viewport interaction engine
(components/ThreeDxfViewer.tsx, canvas version).

The source manipulates JavaScript floating-point numbers; the embedding uses
the rationals so that every definition is executable and every comparison is
decidable. Division by zero in the rationals yields 0 (JavaScript yields
Infinity); whenever a statement depends on a zero denominator this is noted
at the statement. The only square root in the source is the final comparison
"Math.sqrt(d) < threshold" in isPointNearLine; the embedding replaces it by
the equivalent rational comparison "0 < threshold && d < threshold^2", and
the lemma isPointNearLine_iff_sqrt proves that equivalence against Real.sqrt.
-/

namespace AutoDraw

/-- A 2D point with rational coordinates (source: plain records with numeric
fields x and y). -/
structure Point where
  x : ℚ
  y : ℚ
deriving DecidableEq, Repr

/-- The kind-specific payload of an entity. The source stores loosely-typed
records carrying a type tag plus optional fields; a record tagged LINE with
a vertices pair becomes line, a record tagged TEXT with a position becomes
text, and every other record (unknown tag, or a tagged record missing its
geometry fields, which every consumer in the source skips behind a guard
such as entity.type === LINE && entity.vertices) becomes other. -/
inductive EntityData where
  | line (p1 p2 : Point)
  | text (position : Point) (label : String)
  | other
deriving DecidableEq, Repr

/-- An ingested entity: a stable string id plus its payload. -/
structure Entity where
  id : String
  data : EntityData
deriving DecidableEq, Repr

/-! ## Coordinate transform (source: screenToWorld, lines 429-434, and the
world-to-screen mapping used by drawLine / drawText, lines 35-36 and 64). -/

/-- Source screenToWorld: world = ((x - pan.x) / scale, -((y - pan.y) / scale)). -/
def screenToWorld (scale : ℚ) (pan : Point) (x y : ℚ) : Point :=
  ⟨(x - pan.x) / scale, -((y - pan.y) / scale)⟩

/-- The world-to-screen mapping applied by the drawing helpers:
screen = (p.x * scale + offsetX, -p.y * scale + offsetY) with offset = pan. -/
def worldToScreen (scale : ℚ) (pan : Point) (p : Point) : Point :=
  ⟨p.x * scale + pan.x, -p.y * scale + pan.y⟩

/-- Source handleWheel (lines 709-727): new scale = scale * zoomFactor, new
pan = (mouseX - (mouseX - pan.x) * zoomFactor, mouseY - (mouseY - pan.y) * zoomFactor). -/
def wheelZoom (scale : ℚ) (pan : Point) (zoomFactor : ℚ) (mouseX mouseY : ℚ) :
    ℚ × Point :=
  (scale * zoomFactor,
   ⟨mouseX - (mouseX - pan.x) * zoomFactor, mouseY - (mouseY - pan.y) * zoomFactor⟩)

/-- Source handleWheel zoom factor choice: deltaY > 0 gives 0.95, otherwise 1.05. -/
def wheelZoomFactor (deltaY : ℚ) : ℚ :=
  if deltaY > 0 then 19/20 else 21/20

/-- Claim C3: for every point p, scale > 0 and pan, mapping p to screen space
by (p.x * scale + pan.x, -p.y * scale + pan.y) and back through screenToWorld
returns exactly p (the embedding is over the rationals, where the round trip
is exact). -/
theorem screen_world_roundtrip (scale : ℚ) (pan p : Point) (hs : 0 < scale) :
    screenToWorld scale pan (worldToScreen scale pan p).x (worldToScreen scale pan p).y = p := by
  have hs0 : scale ≠ 0 := ne_of_gt hs
  obtain ⟨px, py⟩ := p
  obtain ⟨qx, qy⟩ := pan
  simp only [screenToWorld, worldToScreen, Point.mk.injEq]
  constructor
  · field_simp
  · field_simp

/-- Witness for screen_world_roundtrip at scale 2, pan (3, 4), p (1, -5). -/
theorem screen_world_roundtrip_witness :
    0 < (2 : ℚ) ∧
      screenToWorld 2 ⟨3, 4⟩ (worldToScreen 2 ⟨3, 4⟩ ⟨1, -5⟩).x
        (worldToScreen 2 ⟨3, 4⟩ ⟨1, -5⟩).y = ⟨1, -5⟩ :=
  ⟨by norm_num, screen_world_roundtrip 2 ⟨3, 4⟩ ⟨1, -5⟩ (by norm_num)⟩

/-- Claim C9: a wheel-zoom step with any factor f > 0 at pointer (mouseX,
mouseY) keeps the world point under the pointer fixed: screenToWorld at the
pointer is unchanged by the simultaneous scale and pan update of handleWheel. -/
theorem wheel_zoom_fixes_pointer (scale f mouseX mouseY : ℚ) (pan : Point)
    (hs : 0 < scale) (hf : 0 < f) :
    screenToWorld (wheelZoom scale pan f mouseX mouseY).1
        (wheelZoom scale pan f mouseX mouseY).2 mouseX mouseY =
      screenToWorld scale pan mouseX mouseY := by
  have hs0 : scale ≠ 0 := ne_of_gt hs
  have hf0 : f ≠ 0 := ne_of_gt hf
  obtain ⟨qx, qy⟩ := pan
  simp only [wheelZoom, screenToWorld, Point.mk.injEq]
  constructor
  · field_simp
    ring
  · field_simp
    ring

/-- Witness for wheel_zoom_fixes_pointer at scale 1, pan (0, 0), the zoom
factor the source picks for a positive wheel delta, and pointer (100, 50). -/
theorem wheel_zoom_fixes_pointer_witness :
    0 < (1 : ℚ) ∧ 0 < wheelZoomFactor 3 ∧
      screenToWorld (wheelZoom 1 ⟨0, 0⟩ (wheelZoomFactor 3) 100 50).1
          (wheelZoom 1 ⟨0, 0⟩ (wheelZoomFactor 3) 100 50).2 100 50 =
        screenToWorld 1 ⟨0, 0⟩ 100 50 :=
  ⟨by norm_num, by with_unfolding_all decide,
   wheel_zoom_fixes_pointer 1 (wheelZoomFactor 3) 100 50 ⟨0, 0⟩ (by norm_num)
     (by with_unfolding_all decide)⟩

/-! ## Hit-tester (source: isPointNearLine, lines 126-161, and
findEntityAtPosition, lines 437-476). -/

/-- The clamped closest point of the segment computed by isPointNearLine:
project onto the infinite line when the segment has nonzero squared length
(param is initialised to -1 and only reassigned when lenSq is nonzero), then
clamp the parameter to the segment by the two branch tests param < 0 and
param > 1. -/
def segClosestPoint (point lineStart lineEnd : Point) : Point :=
  let A := point.x - lineStart.x
  let B := point.y - lineStart.y
  let C := lineEnd.x - lineStart.x
  let D := lineEnd.y - lineStart.y
  let dot := A * C + B * D
  let lenSq := C * C + D * D
  let param := if lenSq ≠ 0 then dot / lenSq else -1
  if param < 0 then lineStart
  else if param > 1 then lineEnd
  else ⟨lineStart.x + param * C, lineStart.y + param * D⟩

/-- Squared distance from the point to its clamped projection, the quantity
under the square root at the end of isPointNearLine (dx * dx + dy * dy). -/
def segDistSq (point lineStart lineEnd : Point) : ℚ :=
  (point.x - (segClosestPoint point lineStart lineEnd).x) *
    (point.x - (segClosestPoint point lineStart lineEnd).x) +
  (point.y - (segClosestPoint point lineStart lineEnd).y) *
    (point.y - (segClosestPoint point lineStart lineEnd).y)

/-- Source isPointNearLine returns Math.sqrt(dx * dx + dy * dy) < threshold.
Over the rationals the square root is not available; the comparison is
replaced by the equivalent "0 < threshold and dSq < threshold * threshold",
proved equivalent to the square-root form in isPointNearLine_iff_sqrt. -/
def isPointNearLine (point lineStart lineEnd : Point) (threshold : ℚ) : Bool :=
  decide (0 < threshold) &&
  decide (segDistSq point lineStart lineEnd < threshold * threshold)

theorem segDistSq_nonneg (p s e : Point) : 0 ≤ segDistSq p s e := by
  unfold segDistSq
  have h1 := mul_self_nonneg (p.x - (segClosestPoint p s e).x)
  have h2 := mul_self_nonneg (p.y - (segClosestPoint p s e).y)
  linarith

/-- The rational comparison in isPointNearLine agrees with the source
comparison Math.sqrt(dSq) < threshold, read over the reals. -/
theorem isPointNearLine_iff_sqrt (p s e : Point) (t : ℚ) :
    isPointNearLine p s e t = true ↔
      Real.sqrt ((segDistSq p s e : ℚ) : ℝ) < (t : ℝ) := by
  constructor
  · intro h
    simp only [isPointNearLine, Bool.and_eq_true, decide_eq_true_eq] at h
    obtain ⟨ht, hlt⟩ := h
    have htR : (0 : ℝ) < (t : ℚ) := by exact_mod_cast ht
    rw [Real.sqrt_lt' htR, sq]
    exact_mod_cast hlt
  · intro h
    have htR : (0 : ℝ) < (t : ℚ) := lt_of_le_of_lt (Real.sqrt_nonneg _) h
    have ht : (0 : ℚ) < t := by exact_mod_cast htR
    rw [Real.sqrt_lt' htR, sq] at h
    have hlt : segDistSq p s e < t * t := by exact_mod_cast h
    simp only [isPointNearLine, Bool.and_eq_true, decide_eq_true_eq]
    exact ⟨ht, hlt⟩

/-- Midpoint of a segment. -/
def segMidpoint (lineStart lineEnd : Point) : Point :=
  ⟨(lineStart.x + lineEnd.x) / 2, (lineStart.y + lineEnd.y) / 2⟩

/-- The clamped projection of the midpoint is the midpoint itself, so its
distance to the segment is zero (this also covers the degenerate segment,
where param stays -1 and the start point is the projection). -/
theorem segDistSq_midpoint (s e : Point) : segDistSq (segMidpoint s e) s e = 0 := by
  obtain ⟨sx, sy⟩ := s
  obtain ⟨ex, ey⟩ := e
  simp only [segDistSq, segClosestPoint, segMidpoint]
  split_ifs with h1 h2 h3
  · -- lenSq nonzero, param < 0: impossible since param = 1/2
    exfalso
    have hd : (((sx + ex) / 2 - sx) * (ex - sx) + ((sy + ey) / 2 - sy) * (ey - sy)) /
        ((ex - sx) * (ex - sx) + (ey - sy) * (ey - sy)) = 1 / 2 := by
      field_simp
      ring
    rw [hd] at h2
    norm_num at h2
  · -- lenSq nonzero, param > 1: impossible since param = 1/2
    exfalso
    have hd : (((sx + ex) / 2 - sx) * (ex - sx) + ((sy + ey) / 2 - sy) * (ey - sy)) /
        ((ex - sx) * (ex - sx) + (ey - sy) * (ey - sy)) = 1 / 2 := by
      field_simp
      ring
    rw [hd] at h3
    norm_num at h3
  · -- lenSq nonzero, param = 1/2 lies in the clamp interval
    have hd : (((sx + ex) / 2 - sx) * (ex - sx) + ((sy + ey) / 2 - sy) * (ey - sy)) /
        ((ex - sx) * (ex - sx) + (ey - sy) * (ey - sy)) = 1 / 2 := by
      field_simp
      ring
    rw [hd]
    ring
  · -- degenerate segment: lenSq = 0 forces e = s, the projection is s
    have h0 : (ex - sx) * (ex - sx) + (ey - sy) * (ey - sy) = 0 := by
      push_neg at h1
      exact h1
    have hx0 := mul_self_nonneg (ex - sx)
    have hy0 := mul_self_nonneg (ey - sy)
    have hxx : (ex - sx) * (ex - sx) = 0 := by linarith
    have hyy : (ey - sy) * (ey - sy) = 0 := by linarith
    have hex : ex = sx := by
      have := mul_self_eq_zero.mp hxx
      linarith
    have hey : ey = sy := by
      have := mul_self_eq_zero.mp hyy
      linarith
    subst hex
    subst hey
    ring
  · -- impossible branch: the constant -1 is negative
    exact absurd (by norm_num : (-1 : ℚ) < 0) (by assumption)
  · -- impossible branch: the constant -1 is negative
    exact absurd (by norm_num : (-1 : ℚ) < 0) (by assumption)

/-- Counterexample to claim C2 as stated: the midpoint of the segment from
(0,0) to (2,0) is (1,0), at distance 0 from the segment, yet at tolerance 0
the hit test reports no hit, because the source comparison is the strict
"distance < threshold" and 0 < 0 is false. -/
theorem midpoint_zero_tolerance_not_hit :
    segMidpoint ⟨0, 0⟩ ⟨2, 0⟩ = ⟨1, 0⟩ ∧
      isPointNearLine ⟨1, 0⟩ ⟨0, 0⟩ ⟨2, 0⟩ 0 = false := by
  with_unfolding_all decide

/-- Claim C2, amended: the midpoint of every segment is a hit at every
strictly positive tolerance (at tolerance 0 the strict comparison reports no
hit), and a point whose distance to the nearest segment point equals
tolerance + eps with eps > 0 (stated on squared distances) is not a hit. -/
theorem isPointNearLine_midpoint_and_tolerance :
    (∀ (s e : Point) (t : ℚ), 0 < t →
        isPointNearLine (segMidpoint s e) s e t = true) ∧
    (∀ (p s e : Point) (t eps : ℚ), 0 ≤ t → 0 < eps →
        segDistSq p s e = (t + eps) * (t + eps) →
        isPointNearLine p s e t = false) := by
  constructor
  · intro s e t ht
    simp only [isPointNearLine, Bool.and_eq_true, decide_eq_true_eq]
    refine ⟨ht, ?_⟩
    rw [segDistSq_midpoint]
    exact mul_pos ht ht
  · intro p s e t eps ht heps hdist
    have hge : ¬ (segDistSq p s e < t * t) := by
      rw [hdist]
      nlinarith
    simp only [isPointNearLine, decide_eq_false hge, Bool.and_false]

/-- Witness for isPointNearLine_midpoint_and_tolerance: the midpoint of the
segment from (0,0) to (2,0) is a hit at tolerance 1, and the point (0,3),
at distance 3 = 1 + 2 from the segment, is not a hit at tolerance 1. -/
theorem isPointNearLine_midpoint_and_tolerance_witness :
    (0 < (1 : ℚ) ∧
      isPointNearLine (segMidpoint ⟨0, 0⟩ ⟨2, 0⟩) ⟨0, 0⟩ ⟨2, 0⟩ 1 = true) ∧
    (0 ≤ (1 : ℚ) ∧ 0 < (2 : ℚ) ∧
      segDistSq ⟨0, 3⟩ ⟨0, 0⟩ ⟨2, 0⟩ = ((1 : ℚ) + 2) * (1 + 2) ∧
      isPointNearLine ⟨0, 3⟩ ⟨0, 0⟩ ⟨2, 0⟩ 1 = false) :=
  ⟨⟨by norm_num,
    isPointNearLine_midpoint_and_tolerance.1 ⟨0, 0⟩ ⟨2, 0⟩ 1 (by norm_num)⟩,
   ⟨by norm_num, by norm_num, by with_unfolding_all decide,
    isPointNearLine_midpoint_and_tolerance.2 ⟨0, 3⟩ ⟨0, 0⟩ ⟨2, 0⟩ 1 2
      (by norm_num) (by norm_num) (by with_unfolding_all decide)⟩⟩

/-- Per-entity hit predicate of findEntityAtPosition: lines use
isPointNearLine with the world-space threshold; text entities use the
axis-aligned test of lines 464-468 of the source, with estimated width
text.length * 8 / scale; entities of any other shape are skipped. -/
def entityHit (worldPos : Point) (threshold scale : ℚ) (ent : Entity) : Bool :=
  match ent.data with
  | EntityData.line p1 p2 => isPointNearLine worldPos p1 p2 threshold
  | EntityData.text pos label =>
      decide (worldPos.x ≥ pos.x - 2 / scale) &&
      decide (worldPos.x ≤ pos.x + (label.length : ℚ) * 8 / scale + 2 / scale) &&
      decide (worldPos.y ≥ pos.y - 14 / scale) &&
      decide (worldPos.y ≤ pos.y + 2 / scale)
  | EntityData.other => false

/-- First-match-wins scan over the entity list (the for-loop of
findEntityAtPosition returns on the first matching entity). -/
def findFirstHit (worldPos : Point) (threshold scale : ℚ) :
    List Entity → Option String
  | [] => none
  | ent :: rest =>
      if entityHit worldPos threshold scale ent then some ent.id
      else findFirstHit worldPos threshold scale rest

/-- Source findEntityAtPosition (lines 437-476): convert the screen point to
world space, set the threshold to 10 / scale, scan the entities in order. -/
def findEntityAtPosition (entities : List Entity) (scale : ℚ) (pan : Point)
    (x y : ℚ) : Option String :=
  findFirstHit (screenToWorld scale pan x y) (10 / scale) scale entities

/-- The box described by claim C5 for a text entity, written from the words
of the spec: anchored at the position, extending rightward by the estimated
width text.length * 8 / scale and upward (toward larger world y) by
14 / scale. Kept separate from entityHit so the two can be compared. -/
def specTextHitBox (scale : ℚ) (pos : Point) (label : String) (p : Point) : Bool :=
  decide (pos.x ≤ p.x) &&
  decide (p.x ≤ pos.x + (label.length : ℚ) * 8 / scale) &&
  decide (pos.y ≤ p.y) &&
  decide (p.y ≤ pos.y + 14 / scale)

/-- Claim C5 fails on the code: for the text entity "AB" anchored at (0,0)
with scale 1 and pan (0,0), the world point (5,10) lies inside the box the
claim describes (screen point (5,-10)), yet findEntityAtPosition reports no
hit there; conversely the world point (5,-10) (screen point (5,10)) lies
outside the claimed box, yet findEntityAtPosition reports a hit. The source
test spans world y from position.y - 14/scale to position.y + 2/scale, a box
extending downward, while the text itself (and the selection rectangle drawn
by drawText) extends upward from the anchor in world space. -/
theorem text_hit_box_extends_downward :
    screenToWorld 1 ⟨0, 0⟩ 5 (-10) = ⟨5, 10⟩ ∧
    specTextHitBox 1 ⟨0, 0⟩ "AB" ⟨5, 10⟩ = true ∧
    findEntityAtPosition [⟨"t1", EntityData.text ⟨0, 0⟩ "AB"⟩] 1 ⟨0, 0⟩ 5 (-10) = none ∧
    screenToWorld 1 ⟨0, 0⟩ 5 10 = ⟨5, -10⟩ ∧
    specTextHitBox 1 ⟨0, 0⟩ "AB" ⟨5, -10⟩ = false ∧
    findEntityAtPosition [⟨"t1", EntityData.text ⟨0, 0⟩ "AB"⟩] 1 ⟨0, 0⟩ 5 10 = some "t1" := by
  with_unfolding_all decide

/-! ## Bounds calculator and fit transform (source: calculateBounds, lines
82-123, and the fit effect, lines 222-245). -/

/-- An axis-aligned bounding rectangle. -/
structure Bounds where
  minX : ℚ
  minY : ℚ
  maxX : ℚ
  maxY : ℚ
deriving DecidableEq, Repr

/-- The points calculateBounds folds over, in entity order: both endpoints of
every line and the anchor of every text entity; other entities contribute
nothing. -/
def boundPoints : List Entity → List Point
  | [] => []
  | ent :: rest =>
      match ent.data with
      | EntityData.line p1 p2 => p1 :: p2 :: boundPoints rest
      | EntityData.text pos _ => pos :: boundPoints rest
      | EntityData.other => boundPoints rest

/-- Source calculateBounds. An empty entity list returns the fixed default
box (-10,-10)-(10,10). Otherwise the source folds min/max starting from the
sentinels Infinity and -Infinity; when a nonempty entity list contributes no
point at all (only unknown kinds) those sentinels survive and the returned
box is not made of real numbers, modelled here as none. When at least one
point is found, the fold is the min/max over boundPoints, and symmetric
padding of 10 percent of the larger extent is added on all sides. -/
def calculateBounds (entities : List Entity) : Option Bounds :=
  if entities.isEmpty then some ⟨-10, -10, 10, 10⟩
  else
    match boundPoints entities with
    | [] => none
    | p :: ps =>
      let minX := ps.foldl (fun m q => min m q.x) p.x
      let minY := ps.foldl (fun m q => min m q.y) p.y
      let maxX := ps.foldl (fun m q => max m q.x) p.x
      let maxY := ps.foldl (fun m q => max m q.y) p.y
      let padding := max (maxX - minX) (maxY - minY) * (1 / 10)
      some ⟨minX - padding, minY - padding, maxX + padding, maxY + padding⟩

/-- The fit-transform scale of the draw effect: scale = min(width /
boundWidth, height / boundHeight) * 0.9. -/
def fitScale (width height : ℚ) (b : Bounds) : ℚ :=
  min (width / (b.maxX - b.minX)) (height / (b.maxY - b.minY)) * (9 / 10)

/-- Fit scale computed from an entity list through calculateBounds. -/
def fitScaleOfEntities (width height : ℚ) (entities : List Entity) : Option ℚ :=
  (calculateBounds entities).map (fitScale width height)

/-- Claim C1 fails on the code: a list holding a single text entity has a
bounding box of a single point, the 10-percent padding of a zero extent is
zero, so the padded bounds still have width 0 and height 0, and the fit
scale divides the viewport dimensions by zero. In JavaScript 800 / 0 is
Infinity, so the resulting scale is not finite; in this rational embedding
division by zero yields 0, so the resulting scale is not strictly positive.
Either way the claimed finite, strictly positive scale fails. The same
happens for a single zero-length line. The empty list is the only case the
source guards (default box of width 20). -/
theorem fit_scale_divides_by_zero_on_point_bounds :
    calculateBounds [⟨"t1", EntityData.text ⟨0, 0⟩ "A"⟩] = some ⟨0, 0, 0, 0⟩ ∧
    fitScaleOfEntities 800 600 [⟨"t1", EntityData.text ⟨0, 0⟩ "A"⟩] = some 0 ∧
    calculateBounds [⟨"l1", EntityData.line ⟨3, 4⟩ ⟨3, 4⟩⟩] = some ⟨3, 4, 3, 4⟩ ∧
    fitScaleOfEntities 800 600 [⟨"l1", EntityData.line ⟨3, 4⟩ ⟨3, 4⟩⟩] = some 0 ∧
    calculateBounds ([] : List Entity) = some ⟨-10, -10, 10, 10⟩ ∧
    fitScaleOfEntities 800 600 ([] : List Entity) = some 27 := by
  with_unfolding_all decide

/-! ## Entity ingestion (source: generateId, lines 163-166, and the
ingestion effect, lines 190-203). -/

/-- A raw entity as handed over by the external collaborator: the id field
may be absent. -/
structure RawEntity where
  id : Option String
  data : EntityData
deriving DecidableEq, Repr

/-- JavaScript truthiness of the id field as tested by "if (!entity.id)":
an absent id and the empty string are falsy, every other string is truthy. -/
def truthyId : Option String → Bool
  | none => false
  | some s => decide (s ≠ "")

/-- The ingestion map with an explicit supply of generated ids: the source
calls generateId() once per entity whose id is falsy, so the k-th such
entity receives the k-th value of the supply; entities with a truthy id pass
through unchanged. -/
def ingestAux (fresh : ℕ → String) : ℕ → List RawEntity → List RawEntity
  | _, [] => []
  | k, ent :: rest =>
      if truthyId ent.id then ent :: ingestAux fresh k rest
      else { ent with id := some (fresh k) } :: ingestAux fresh (k + 1) rest

/-- Source ingestion effect: map over dxf.entities assigning a generated id
where one is missing. The supply models the successive return values of
generateId (Math.random().toString(36).substring(2, 9)). -/
def ingest (fresh : ℕ → String) (l : List RawEntity) : List RawEntity :=
  ingestAux fresh 0 l

/-- Counterexample to claim C6 as stated: the ingestion step preserves
existing ids without any duplicate check, so a raw list whose entities
already carry the same id "a" twice is ingested into a store with two equal
ids, whatever the generator returns. -/
theorem ingest_keeps_duplicate_ids :
    (ingest (fun _ => "z") [⟨some "a", EntityData.other⟩, ⟨some "a", EntityData.other⟩]).map
        RawEntity.id = [some "a", some "a"] ∧
    ¬ ((ingest (fun _ => "z") [⟨some "a", EntityData.other⟩, ⟨some "a", EntityData.other⟩]).map
        RawEntity.id).Nodup := by
  decide

/-- Every id in the ingested list is either a truthy id of some input entity
or a generated id with index at least k and below k plus the list length. -/
theorem mem_ingestAux_ids (fresh : ℕ → String) :
    ∀ (l : List RawEntity) (k : ℕ) (y : Option String),
      y ∈ (ingestAux fresh k l).map RawEntity.id →
      (∃ e ∈ l, truthyId e.id = true ∧ y = e.id) ∨
      (∃ j, k ≤ j ∧ j < k + l.length ∧ y = some (fresh j)) := by
  intro l
  induction l with
  | nil => intro k y hy; simp [ingestAux] at hy
  | cons ent rest ih =>
    intro k y hy
    simp only [List.length_cons]
    by_cases ht : truthyId ent.id = true
    · rw [ingestAux, if_pos ht, List.map_cons, List.mem_cons] at hy
      rcases hy with hy | hy
      · exact Or.inl ⟨ent, List.mem_cons_self ent rest, ht, hy⟩
      · rcases ih k y hy with ⟨e, he, hte, hye⟩ | ⟨j, hkj, hjl, hyj⟩
        · exact Or.inl ⟨e, List.mem_cons_of_mem ent he, hte, hye⟩
        · exact Or.inr ⟨j, hkj, by omega, hyj⟩
    · rw [ingestAux, if_neg ht, List.map_cons, List.mem_cons] at hy
      rcases hy with hy | hy
      · exact Or.inr ⟨k, le_refl k, by omega, hy⟩
      · rcases ih (k + 1) y hy with ⟨e, he, hte, hye⟩ | ⟨j, hkj, hjl, hyj⟩
        · exact Or.inl ⟨e, List.mem_cons_of_mem ent he, hte, hye⟩
        · exact Or.inr ⟨j, by omega, by omega, hyj⟩

/-- The truthy ids present in a raw list, in order. -/
def presentIds (l : List RawEntity) : List String :=
  l.filterMap (fun e => if truthyId e.id then e.id else none)

theorem mem_presentIds {l : List RawEntity} {e : RawEntity} {s : String}
    (he : e ∈ l) (ht : truthyId e.id = true) (hs : e.id = some s) :
    s ∈ presentIds l := by
  unfold presentIds
  rw [List.mem_filterMap]
  exact ⟨e, he, by rw [if_pos ht, hs]⟩

theorem ingestAux_nodup (fresh : ℕ → String) :
    ∀ (l : List RawEntity) (k : ℕ),
      (∀ m, k ≤ m → m < k + l.length → ∀ n, k ≤ n → n < k + l.length →
        fresh m = fresh n → m = n) →
      (∀ e ∈ l, ∀ n, k ≤ n → n < k + l.length → e.id ≠ some (fresh n)) →
      (presentIds l).Nodup →
      ((ingestAux fresh k l).map RawEntity.id).Nodup := by
  intro l
  induction l with
  | nil => intro k _ _ _; simp [ingestAux]
  | cons ent rest ih =>
    intro k hinj hdisj hnodup
    simp only [List.length_cons] at hinj hdisj
    by_cases ht : truthyId ent.id = true
    · obtain ⟨s, hs⟩ : ∃ s, ent.id = some s := by
        cases h : ent.id with
        | none =>
          rw [h] at ht
          simp [truthyId] at ht
        | some s => exact ⟨s, rfl⟩
      have hpres : presentIds (ent :: rest) = s :: presentIds rest := by
        have ht2 := ht
        rw [hs] at ht2
        simp [presentIds, List.filterMap_cons, hs, ht2]
      rw [ingestAux, if_pos ht, List.map_cons, List.nodup_cons]
      constructor
      · intro hy
        rcases mem_ingestAux_ids fresh rest k ent.id hy with
          ⟨e, he, hte, hye⟩ | ⟨j, hkj, hjl, hyj⟩
        · obtain ⟨u, hu⟩ : ∃ u, e.id = some u := by
            cases h : e.id with
            | none =>
              rw [h] at hte
              simp [truthyId] at hte
            | some u => exact ⟨u, rfl⟩
          have hsu : s = u := by
            rw [hs, hu] at hye
            exact Option.some.inj hye
          have hu2 : u ∈ presentIds rest := mem_presentIds he hte hu
          rw [hpres] at hnodup
          rw [hsu] at hnodup
          exact (List.nodup_cons.mp hnodup).1 hu2
        · exact hdisj ent (List.mem_cons_self ent rest) j hkj (by omega) hyj
      · refine ih k ?_ ?_ ?_
        · intro m hm hml n hn hnl
          exact hinj m hm (by omega) n hn (by omega)
        · intro e he n hn hnl
          exact hdisj e (List.mem_cons_of_mem ent he) n hn (by omega)
        · rw [hpres] at hnodup
          exact (List.nodup_cons.mp hnodup).2
    · have hpres : presentIds (ent :: rest) = presentIds rest := by
        simp [presentIds, List.filterMap_cons, ht]
      rw [ingestAux, if_neg ht, List.map_cons, List.nodup_cons]
      constructor
      · intro hy
        rcases mem_ingestAux_ids fresh rest (k + 1) (some (fresh k)) hy with
          ⟨e, he, hte, hye⟩ | ⟨j, hkj, hjl, hyj⟩
        · exact hdisj e (List.mem_cons_of_mem ent he) k (le_refl k)
            (by omega) hye.symm
        · have hkja : k = j := hinj k (le_refl k) (by omega) j (by omega) (by omega)
            (Option.some.inj hyj)
          omega
      · refine ih (k + 1) ?_ ?_ ?_
        · intro m hm hml n hn hnl
          exact hinj m (by omega) (by omega) n (by omega) (by omega)
        · intro e he n hn hnl
          exact hdisj e (List.mem_cons_of_mem ent he) n (by omega) (by omega)
        · rw [hpres] at hnodup
          exact hnodup

/-- Claim C6, amended: ingestion yields pairwise-distinct ids provided the
generated ids are pairwise distinct, no generated id collides with an id
already present in the input, and the ids already present in the input are
themselves pairwise distinct. The code checks none of these conditions: it
relies on them, so without them the invariant can fail (see the
counterexample with a duplicated input id). -/
theorem ingest_nodup_of_fresh (fresh : ℕ → String) (l : List RawEntity)
    (hinj : ∀ m, m < l.length → ∀ n, n < l.length → fresh m = fresh n → m = n)
    (hdisj : ∀ e ∈ l, ∀ n, n < l.length → e.id ≠ some (fresh n))
    (hnodup : (presentIds l).Nodup) :
    ((ingest fresh l).map RawEntity.id).Nodup := by
  refine ingestAux_nodup fresh l 0 ?_ ?_ hnodup
  · intro m _ hm n _ hn
    exact hinj m (by omega) n (by omega)
  · intro e he n _ hn
    exact hdisj e he n (by omega)

/-- Witness for ingest_nodup_of_fresh on a three-entity list holding a
truthy id, an absent id and an empty (falsy) id, with generator f0, f1, ... -/
theorem ingest_nodup_of_fresh_witness :
    (∀ m, m < ([⟨some "a", EntityData.other⟩, ⟨none, EntityData.other⟩,
        ⟨some "", EntityData.other⟩] : List RawEntity).length →
      ∀ n, n < ([⟨some "a", EntityData.other⟩, ⟨none, EntityData.other⟩,
        ⟨some "", EntityData.other⟩] : List RawEntity).length →
      ("f" ++ toString m) = ("f" ++ toString n) → m = n) ∧
    (∀ e ∈ ([⟨some "a", EntityData.other⟩, ⟨none, EntityData.other⟩,
        ⟨some "", EntityData.other⟩] : List RawEntity),
      ∀ n, n < ([⟨some "a", EntityData.other⟩, ⟨none, EntityData.other⟩,
        ⟨some "", EntityData.other⟩] : List RawEntity).length →
      e.id ≠ some ("f" ++ toString n)) ∧
    (presentIds [⟨some "a", EntityData.other⟩, ⟨none, EntityData.other⟩,
        ⟨some "", EntityData.other⟩]).Nodup ∧
    ((ingest (fun n => "f" ++ toString n)
        [⟨some "a", EntityData.other⟩, ⟨none, EntityData.other⟩,
         ⟨some "", EntityData.other⟩]).map RawEntity.id).Nodup :=
  ⟨by decide, by decide, by decide,
   ingest_nodup_of_fresh (fun n => "f" ++ toString n) _
     (by decide) (by decide) (by decide)⟩

/-- After ingestion every entity id is truthy, provided the generator never
returns the empty string (Math.random().toString(36).substring(2, 9) returns
a nonempty string except in the measure-zero case Math.random() = 0). -/
theorem truthy_ingestAux (fresh : ℕ → String) (hfr : ∀ n, fresh n ≠ "") :
    ∀ (l : List RawEntity) (k : ℕ), ∀ e ∈ ingestAux fresh k l, truthyId e.id = true := by
  intro l
  induction l with
  | nil => intro k e he; simp [ingestAux] at he
  | cons ent rest ih =>
    intro k e he
    by_cases ht : truthyId ent.id = true
    · rw [ingestAux, if_pos ht] at he
      rcases List.mem_cons.mp he with he | he
      · rw [he]; exact ht
      · exact ih k e he
    · rw [ingestAux, if_neg ht] at he
      rcases List.mem_cons.mp he with he | he
      · rw [he]
        simp [truthyId, hfr k]
      · exact ih (k + 1) e he

/-- Ingestion leaves a list whose ids are all truthy unchanged. -/
theorem ingestAux_of_truthy (g : ℕ → String) :
    ∀ (l : List RawEntity) (k : ℕ), (∀ e ∈ l, truthyId e.id = true) →
      ingestAux g k l = l := by
  intro l
  induction l with
  | nil => intro k _; rfl
  | cons ent rest ih =>
    intro k hall
    rw [ingestAux, if_pos (hall ent (List.mem_cons_self ent rest))]
    rw [ih k (fun e he => hall e (List.mem_cons_of_mem ent he))]

/-- Claim C7: ingestion is idempotent. A second ingestion pass (with any
generator) over the output of a first pass returns exactly the same list
with the identical ids, because after the first pass every entity carries a
truthy id; the hypothesis records that the generator of the first pass never
returns the empty string, which is what generateId guarantees for every
value of Math.random() other than exactly 0. -/
theorem ingest_idempotent (fresh fresh2 : ℕ → String) (l : List RawEntity)
    (hfr : ∀ n, fresh n ≠ "") :
    ingest fresh2 (ingest fresh l) = ingest fresh l := by
  unfold ingest
  exact ingestAux_of_truthy fresh2 (ingestAux fresh 0 l) 0
    (truthy_ingestAux fresh hfr l 0)

/-- Witness for ingest_idempotent: re-ingesting the ingested singleton list
with a different generator changes nothing. -/
theorem ingest_idempotent_witness :
    (∀ n : ℕ, (fun _ : ℕ => "x") n ≠ "") ∧
    ingest (fun _ => "y") (ingest (fun _ => "x") [⟨none, EntityData.other⟩]) =
      ingest (fun _ => "x") [⟨none, EntityData.other⟩] :=
  ⟨fun _ => by show "x" ≠ ""; decide,
   ingest_idempotent (fun _ => "x") (fun _ => "y") [⟨none, EntityData.other⟩]
     (fun _ => by show "x" ≠ ""; decide)⟩

/-! ## Drag-move (source: the move-selection branch of handleMouseMove,
lines 560-599). -/

/-- Source move step: dx = screen delta x / scale, dy = screen delta y /
scale * -1; entities whose id is not in the selection are returned
unchanged; selected lines get both endpoints translated, selected text gets
its position translated; selected entities of any other shape fall through
unchanged. -/
def moveSelection (selectedIds : List String) (scale dxScreen dyScreen : ℚ)
    (entities : List Entity) : List Entity :=
  let dx := dxScreen / scale
  let dy := dyScreen / scale * (-1)
  entities.map (fun ent =>
    if !(selectedIds.contains ent.id) then ent
    else
      match ent.data with
      | EntityData.line p1 p2 =>
          { ent with data := EntityData.line ⟨p1.x + dx, p1.y + dy⟩ ⟨p2.x + dx, p2.y + dy⟩ }
      | EntityData.text pos label =>
          { ent with data := EntityData.text ⟨pos.x + dx, pos.y + dy⟩ label }
      | EntityData.other => ent)

/-- The per-entity translation described by the spec: add the world delta to
both line endpoints or to the text position; other entities are unchanged. -/
def specTranslateEntity (delta : Point) (ent : Entity) : Entity :=
  match ent.data with
  | EntityData.line p1 p2 =>
      { ent with data := EntityData.line ⟨p1.x + delta.x, p1.y + delta.y⟩ ⟨p2.x + delta.x, p2.y + delta.y⟩ }
  | EntityData.text pos label =>
      { ent with data := EntityData.text ⟨pos.x + delta.x, pos.y + delta.y⟩ label }
  | EntityData.other => ent

/-- Claim C8: a pointer move of screen delta (sx, sy) at scale s translates
every selected entity by the world delta (sx / s, -(sy / s)) and leaves
every non-selected entity unchanged; in particular a drag by screen delta
(10, 0) at scale 2 shifts a selected line from (0,0)-(10,0) to (5,0)-(15,0). -/
theorem move_selection_translates :
    (∀ (selectedIds : List String) (s sx sy : ℚ) (entities : List Entity),
        moveSelection selectedIds s sx sy entities =
          entities.map (fun ent =>
            if selectedIds.contains ent.id then
              specTranslateEntity ⟨sx / s, -(sy / s)⟩ ent
            else ent)) ∧
    moveSelection ["l1"] 2 10 0 [⟨"l1", EntityData.line ⟨0, 0⟩ ⟨10, 0⟩⟩] =
      [⟨"l1", EntityData.line ⟨5, 0⟩ ⟨15, 0⟩⟩] := by
  constructor
  · intro selectedIds s sx sy entities
    unfold moveSelection
    apply List.map_congr_left
    intro ent _
    by_cases hc : selectedIds.contains ent.id
    · rw [hc]
      simp only [Bool.not_true, Bool.false_eq_true, if_false, if_true]
      cases hd : ent.data with
      | line p1 p2 =>
        simp only [specTranslateEntity, hd]
        have hdy : sy / s * (-1) = -(sy / s) := by ring
        rw [hdy]
      | text pos label =>
        simp only [specTranslateEntity, hd]
        have hdy : sy / s * (-1) = -(sy / s) := by ring
        rw [hdy]
      | other =>
        simp only [specTranslateEntity, hd]
    · rw [Bool.not_eq_true] at hc
      rw [hc]
      simp only [Bool.not_false, if_true, Bool.false_eq_true, if_false]
  · with_unfolding_all decide

/-! ## Selection box and box-select geometry (source: the selection-box
update of handleMouseMove, lines 549-558, and the box resolution of
handleMouseUp, lines 627-678). -/

/-- The in-progress screen-space selection box. -/
structure SelBox where
  x : ℚ
  y : ℚ
  width : ℚ
  height : ℚ
deriving DecidableEq, Repr

/-- Source handleMouseMove selection-box update: top-left corner is the
componentwise minimum of the anchor and the current pointer, width and
height are absolute differences. -/
def updateSelectionBox (anchor : Point) (x y : ℚ) : SelBox :=
  ⟨min anchor.x x, min anchor.y y, |x - anchor.x|, |y - anchor.y|⟩

/-- A world-space axis-aligned selection rectangle. -/
structure WorldRect where
  minX : ℚ
  minY : ℚ
  maxX : ℚ
  maxY : ℚ
deriving DecidableEq, Repr

/-- Source handleMouseUp: the screen-space selection box converted to world
space (the screen y axis is flipped, so the screen bottom edge maps to the
world minimum). -/
def worldSelectionBox (box : SelBox) (pan : Point) (scale : ℚ) : WorldRect :=
  ⟨(box.x - pan.x) / scale,
   -((box.y + box.height - pan.y) / scale),
   (box.x + box.width - pan.x) / scale,
   -((box.y - pan.y) / scale)⟩

/-- Claim C10: the selection box maintained on pointer-move has non-negative
width and height, and for positive scale the world rectangle derived from it
on pointer-up is properly ordered on both axes. -/
theorem selection_box_ordered (anchor : Point) (x y : ℚ) (pan : Point) (scale : ℚ) :
    0 ≤ (updateSelectionBox anchor x y).width ∧
    0 ≤ (updateSelectionBox anchor x y).height ∧
    (0 < scale →
      (worldSelectionBox (updateSelectionBox anchor x y) pan scale).minX ≤
        (worldSelectionBox (updateSelectionBox anchor x y) pan scale).maxX ∧
      (worldSelectionBox (updateSelectionBox anchor x y) pan scale).minY ≤
        (worldSelectionBox (updateSelectionBox anchor x y) pan scale).maxY) := by
  refine ⟨abs_nonneg _, abs_nonneg _, ?_⟩
  intro hs
  have hw : 0 ≤ |x - anchor.x| := abs_nonneg _
  have hh : 0 ≤ |y - anchor.y| := abs_nonneg _
  constructor
  · apply div_le_div_of_nonneg_right _ hs.le
    simp only [updateSelectionBox]
    linarith
  · apply neg_le_neg
    apply div_le_div_of_nonneg_right _ hs.le
    simp only [updateSelectionBox]
    linarith

/-- Witness for selection_box_ordered with anchor (0,0), pointer (-3,4),
pan (1,1), scale 2, with the positivity hypothesis discharged. -/
theorem selection_box_ordered_witness :
    0 ≤ (updateSelectionBox ⟨0, 0⟩ (-3) 4).width ∧
    0 ≤ (updateSelectionBox ⟨0, 0⟩ (-3) 4).height ∧
    0 < (2 : ℚ) ∧
    ((worldSelectionBox (updateSelectionBox ⟨0, 0⟩ (-3) 4) ⟨1, 1⟩ 2).minX ≤
       (worldSelectionBox (updateSelectionBox ⟨0, 0⟩ (-3) 4) ⟨1, 1⟩ 2).maxX ∧
     (worldSelectionBox (updateSelectionBox ⟨0, 0⟩ (-3) 4) ⟨1, 1⟩ 2).minY ≤
       (worldSelectionBox (updateSelectionBox ⟨0, 0⟩ (-3) 4) ⟨1, 1⟩ 2).maxY) :=
  ⟨(selection_box_ordered ⟨0, 0⟩ (-3) 4 ⟨1, 1⟩ 2).1,
   (selection_box_ordered ⟨0, 0⟩ (-3) 4 ⟨1, 1⟩ 2).2.1,
   by norm_num,
   (selection_box_ordered ⟨0, 0⟩ (-3) 4 ⟨1, 1⟩ 2).2.2 (by norm_num)⟩

/-! ## Selection manager state machine (source: handleMouseDown lines
479-540, handleMouseUp lines 627-678, handleKeyDown lines 258-300, and the
Clear Selection button, line 785). -/

/-- The box containment test of the box-select resolution: a line is caught
when either endpoint lies in the rectangle (inclusive bounds), a text entity
when its anchor does; other entities are never caught. -/
def entityInWorldRect (r : WorldRect) (ent : Entity) : Bool :=
  match ent.data with
  | EntityData.line p1 p2 =>
      (decide (r.minX ≤ p1.x) && decide (p1.x ≤ r.maxX) &&
       decide (r.minY ≤ p1.y) && decide (p1.y ≤ r.maxY)) ||
      (decide (r.minX ≤ p2.x) && decide (p2.x ≤ r.maxX) &&
       decide (r.minY ≤ p2.y) && decide (p2.y ≤ r.maxY))
  | EntityData.text pos _ =>
      decide (r.minX ≤ pos.x) && decide (pos.x ≤ r.maxX) &&
      decide (r.minY ≤ pos.y) && decide (pos.y ≤ r.maxY)
  | EntityData.other => false

/-- Order-preserving removal of duplicates, the semantics of the source
expression [...new Set([...prev, ...newIds])]: a JavaScript Set keeps the
first occurrence of each element in insertion order. -/
def dedupFirst (seen : List String) : List String → List String
  | [] => []
  | x :: xs =>
      if seen.contains x then dedupFirst seen xs
      else x :: dedupFirst (x :: seen) xs

/-- The viewer state relevant to the selection invariant. -/
structure ViewState where
  entities : List Entity
  selectedIds : List String
  scale : ℚ
  pan : Point

/-- The selection operations of claim C4, as dispatched by the source event
handlers in select mode: a left-button click (single or additive via shift),
a resolved box selection (replacing or, with shift, unioning), the
Delete/Backspace handler, the Escape handler, and the Clear Selection
button. -/
inductive EditorOp where
  | click (x y : ℚ) (shift : Bool)
  | boxSelect (box : SelBox) (shift : Bool)
  | deleteKey
  | escapeKey
  | clearSelection

/-- One step of the selection state machine, transcribed from the source
handlers. A click runs findEntityAtPosition: a hit on an already-selected
entity enters move mode and leaves the selection unchanged; a hit on an
unselected entity replaces the selection, or appends to it when shift is
held; a miss clears the selection unless shift is held. A box selection
collects the ids of the entities caught by the world rectangle and replaces
the selection, or, with shift, unions them after the previous ids with
first-occurrence deduplication. Delete (when the selection is non-empty)
removes the selected entities and clears the selection. Escape and the
Clear Selection button clear the selection. -/
def stepOp (st : ViewState) (op : EditorOp) : ViewState :=
  match op with
  | EditorOp.click x y shift =>
      match findEntityAtPosition st.entities st.scale st.pan x y with
      | some eid =>
          if st.selectedIds.contains eid then st
          else if shift then { st with selectedIds := st.selectedIds ++ [eid] }
          else { st with selectedIds := [eid] }
      | none =>
          if shift then st else { st with selectedIds := [] }
  | EditorOp.boxSelect box shift =>
      let wr := worldSelectionBox box st.pan st.scale
      let hits := (st.entities.filter (fun e => entityInWorldRect wr e)).map Entity.id
      if shift then { st with selectedIds := dedupFirst [] (st.selectedIds ++ hits) }
      else { st with selectedIds := hits }
  | EditorOp.deleteKey =>
      if st.selectedIds.length > 0 then
        { st with
          entities := st.entities.filter (fun e => !(st.selectedIds.contains e.id)),
          selectedIds := [] }
      else st
  | EditorOp.escapeKey => { st with selectedIds := [] }
  | EditorOp.clearSelection => { st with selectedIds := [] }

/-- Run a list of operations from a starting state. -/
def runOps (st : ViewState) : List EditorOp → ViewState
  | [] => st
  | op :: ops => runOps (stepOp st op) ops

/-- The selection invariant: every selected id is the id of some entity
currently in the store. -/
def selectionValid (st : ViewState) : Bool :=
  st.selectedIds.all (fun i => st.entities.any (fun e => e.id == i))

theorem selectionValid_iff (st : ViewState) :
    selectionValid st = true ↔ ∀ i ∈ st.selectedIds, ∃ e ∈ st.entities, e.id = i := by
  simp [selectionValid, List.all_eq_true, List.any_eq_true, beq_iff_eq]

/-- A hit reported by findFirstHit is the id of a scanned entity. -/
theorem findFirstHit_mem (worldPos : Point) (threshold scale : ℚ) :
    ∀ (l : List Entity) (eid : String),
      findFirstHit worldPos threshold scale l = some eid →
      ∃ e ∈ l, e.id = eid := by
  intro l
  induction l with
  | nil => intro eid h; simp [findFirstHit] at h
  | cons ent rest ih =>
    intro eid h
    rw [findFirstHit] at h
    by_cases hh : entityHit worldPos threshold scale ent = true
    · rw [if_pos hh] at h
      exact ⟨ent, List.mem_cons_self ent rest, Option.some.inj h⟩
    · rw [if_neg hh] at h
      obtain ⟨e, he, hei⟩ := ih eid h
      exact ⟨e, List.mem_cons_of_mem ent he, hei⟩

/-- A hit reported by findEntityAtPosition is the id of a stored entity. -/
theorem findEntityAtPosition_mem (entities : List Entity) (scale : ℚ)
    (pan : Point) (x y : ℚ) (eid : String)
    (h : findEntityAtPosition entities scale pan x y = some eid) :
    ∃ e ∈ entities, e.id = eid :=
  findFirstHit_mem (screenToWorld scale pan x y) (10 / scale) scale entities eid h

/-- Membership in the deduplicated list implies membership in the original. -/
theorem mem_dedupFirst (x : String) :
    ∀ (seen l : List String), x ∈ dedupFirst seen l → x ∈ l := by
  intro seen l
  induction l generalizing seen with
  | nil => intro h; simp [dedupFirst] at h
  | cons a as ih =>
    intro h
    rw [dedupFirst] at h
    by_cases hc : seen.contains a = true
    · rw [if_pos hc] at h
      exact List.mem_cons_of_mem a (ih seen h)
    · rw [if_neg hc] at h
      rcases List.mem_cons.mp h with h | h
      · exact h ▸ List.mem_cons_self a as
      · exact List.mem_cons_of_mem a (ih (a :: seen) h)

/-- Every single step of the selection state machine preserves the
invariant. -/
theorem stepOp_preserves_selectionValid (st : ViewState) (op : EditorOp)
    (h : selectionValid st = true) : selectionValid (stepOp st op) = true := by
  rw [selectionValid_iff] at h ⊢
  cases op with
  | click x y shift =>
    simp only [stepOp]
    split
    · rename_i eid hf
      by_cases hc : st.selectedIds.contains eid = true
      · rw [if_pos hc]
        exact h
      · rw [if_neg hc]
        obtain ⟨e, he, hei⟩ := findEntityAtPosition_mem st.entities st.scale st.pan x y eid hf
        by_cases hshift : shift = true
        · rw [if_pos hshift]
          intro i hi
          rcases List.mem_append.mp hi with hi | hi
          · exact h i hi
          · rw [List.mem_singleton.mp hi]
            exact ⟨e, he, hei⟩
        · rw [if_neg hshift]
          intro i hi
          rw [List.mem_singleton.mp hi]
          exact ⟨e, he, hei⟩
    · rename_i hf
      by_cases hshift : shift = true
      · rw [if_pos hshift]
        exact h
      · rw [if_neg hshift]
        intro i hi
        simp at hi
  | boxSelect box shift =>
    simp only [stepOp]
    by_cases hshift : shift = true
    · rw [if_pos hshift]
      intro i hi
      have hi2 := mem_dedupFirst i [] _ hi
      rcases List.mem_append.mp hi2 with hi2 | hi2
      · exact h i hi2
      · obtain ⟨e, he, hei⟩ := List.mem_map.mp hi2
        exact ⟨e, List.mem_of_mem_filter he, hei⟩
    · rw [if_neg hshift]
      intro i hi
      obtain ⟨e, he, hei⟩ := List.mem_map.mp hi
      exact ⟨e, List.mem_of_mem_filter he, hei⟩
  | deleteKey =>
    simp only [stepOp]
    by_cases hne : st.selectedIds.length > 0
    · rw [if_pos hne]
      intro i hi
      simp at hi
    · rw [if_neg hne]
      exact h
  | escapeKey =>
    intro i hi
    simp [stepOp] at hi
  | clearSelection =>
    intro i hi
    simp [stepOp] at hi

/-- Claim C4: starting from any ingested entity list with an empty
selection, after any sequence of selection operations (single and additive
click selection, box selection, clear, delete, escape) every id in the
selection references an entity currently present in the store. -/
theorem selection_invariant_after_ops (entities : List Entity) (scale : ℚ)
    (pan : Point) (ops : List EditorOp) :
    selectionValid (runOps ⟨entities, [], scale, pan⟩ ops) = true := by
  have hrun : ∀ (ops2 : List EditorOp) (st : ViewState),
      selectionValid st = true → selectionValid (runOps st ops2) = true := by
    intro ops2
    induction ops2 with
    | nil => intro st h; exact h
    | cons op rest ih =>
      intro st h
      exact ih (stepOp st op) (stepOp_preserves_selectionValid st op h)
  apply hrun
  rw [selectionValid_iff]
  intro i hi
  simp at hi

end AutoDraw
